import Mathlib

/-!
# StreamLens indexing pipeline — shallow embedding and verification

This file embeds the core indexing pipeline of the StreamLens repository
(schema store, historical scanner, real-time monitor, retry utility, webhook
dispatch) as executable Lean definitions and proves, or refutes, the stated
specification claims about it.

Sources embedded:
* `src/types/schema.ts` — `IndexedSchema`, `IndexerState`, `SchemaRegisteredEvent`;
* `src/indexer/SchemaRepository.ts` — the JSON-file store (in-memory `Map` plus
  state record); file writes are modelled through an environment outcome;
* `src/indexer/HistoricalScanner.ts` — `scan` / `scanBatch` / `enrichAndSaveEvents`;
* `src/utils/retry.ts` — `retryWithBackoff`;
* `src/realtime/RealtimeMonitor.ts` — `processEvent`, `handleConnectionError`,
  `isHealthy`;
* `src/realtime/WebhookManager.ts` — `sendWebhook`.

Remote calls (RPC) and filesystem writes are modelled by an explicit
environment (`ScanEnv`) recording, for each query, the outcome that the
underlying call chain (rate limiter + retry wrapper) eventually produced:
`.ok` data or `.error` after exhausted retries.  Sleeps are recorded as data.
-/

/-- Network selector, `"mainnet" | "testnet"` in the source. -/
inductive Network where
  | mainnet
  | testnet
  deriving DecidableEq, Repr

/-- Open metadata map attached to a schema (`SchemaMetadata` in
`src/types/schema.ts`); all fields optional. -/
structure SchemaMetadata where
  usageCount : Option Nat := none
  lastUsedBlock : Option Nat := none
  description : Option String := none
  tags : Option (List String) := none
  deriving DecidableEq, Repr

/-- `IndexedSchema` from `src/types/schema.ts`.  `Hex`/`Address` become
`String`, `bigint` becomes `Nat`.  The two optional TS fields are `Option`s;
`none` models the property being absent from the object. -/
structure IndexedSchema where
  schemaId : String
  schemaName : String
  schemaDefinition : String
  publisherAddress : String
  blockNumber : Nat
  timestamp : Nat
  transactionHash : String
  parentSchemaId : Option String := none
  isPublic : Bool
  metadata : Option SchemaMetadata := none
  deriving DecidableEq, Repr

/-- `IndexerState` from `src/types/schema.ts`. -/
structure IndexerState where
  network : Network
  lastScannedBlock : Nat
  lastSyncTimestamp : Nat
  totalSchemasIndexed : Nat
  isHealthy : Bool
  deriving DecidableEq, Repr

/-- `Partial<IndexerState>` as it is used by `updateState`: each field either
present (`some`) or absent (`none`) from the update object. -/
structure IndexerStateUpdate where
  network : Option Network := none
  lastScannedBlock : Option Nat := none
  lastSyncTimestamp : Option Nat := none
  totalSchemasIndexed : Option Nat := none
  isHealthy : Option Bool := none
  deriving DecidableEq, Repr

/-- `SchemaRegisteredEvent` from `src/types/schema.ts` (the decoded log). -/
structure SchemaRegisteredEvent where
  schemaId : String
  blockNumber : Nat
  transactionHash : String
  logIndex : Nat
  deriving DecidableEq, Repr

/-- The in-memory `Map<Hex, IndexedSchema>` of `SchemaRepository`, as an
association list in insertion order (JS `Map` iterates in insertion order;
`set` on an existing key updates in place, otherwise appends). -/
abbrev SchemaMap := List (String × IndexedSchema)

/-- JS `Map.get`. -/
def mapGet (k : String) : SchemaMap → Option IndexedSchema
  | [] => none
  | (k0, v0) :: rest => if k0 = k then some v0 else mapGet k rest

/-- JS `Map.set`: update in place if the key exists, else append. -/
def mapSet (k : String) (v : IndexedSchema) : SchemaMap → SchemaMap
  | [] => [(k, v)]
  | (k0, v0) :: rest => if k0 = k then (k, v) :: rest else (k0, v0) :: mapSet k v rest

/-- The `SchemaRepository` instance state: the schemas `Map` and the
`IndexerState` record (file mirror writes are modelled where a claim needs
them, via the scan environment). -/
structure SchemaRepository where
  schemas : SchemaMap
  state : IndexerState
  deriving DecidableEq, Repr

/-- The default `IndexerState` produced by `loadState` on a fresh data
directory (`START_BLOCK` defaulting to 0). -/
def defaultState : IndexerState :=
  { network := Network.mainnet
    lastScannedBlock := 0
    lastSyncTimestamp := 0
    totalSchemasIndexed := 0
    isHealthy := true }

/-- A repository starting fresh: no schemas on disk, default state. -/
def freshRepo : SchemaRepository :=
  { schemas := [], state := defaultState }

/-- The TS object spread `{ ...existing, ...schema }` used by `saveSchema`
when the id already exists: every field present on the incoming record
overwrites the existing one (empty strings included); the two optional fields
keep the existing value only when absent (`none`) on the incoming record. -/
def spreadMerge (existing incoming : IndexedSchema) : IndexedSchema :=
  { incoming with
    parentSchemaId :=
      match incoming.parentSchemaId with
      | some p => some p
      | none => existing.parentSchemaId
    metadata :=
      match incoming.metadata with
      | some m => some m
      | none => existing.metadata }

/-- `SchemaRepository.saveSchema`: single upsert.  On an existing id the map
entry becomes `{ ...existing, ...schema }` and the counter is untouched; on a
new id the record is inserted and `totalSchemasIndexed` is incremented. -/
def saveSchema (repo : SchemaRepository) (schema : IndexedSchema) : SchemaRepository :=
  match mapGet schema.schemaId repo.schemas with
  | some existing =>
      { repo with schemas := mapSet schema.schemaId (spreadMerge existing schema) repo.schemas }
  | none =>
      { repo with
        schemas := mapSet schema.schemaId schema repo.schemas
        state := { repo.state with
                    totalSchemasIndexed := repo.state.totalSchemasIndexed + 1 } }

/-- `SchemaRepository.saveSchemas`: batch save.  Each record is written with
`Map.set` (wholesale replacement, no merge); `newCount` counts the records
whose id was not present at the moment of their write and is added to
`totalSchemasIndexed` at the end. -/
def saveSchemas (repo : SchemaRepository) (schemas : List IndexedSchema) : SchemaRepository :=
  let r := schemas.foldl
    (fun (acc : SchemaMap × Nat) s =>
      let newCount := if (mapGet s.schemaId acc.1).isSome then acc.2 else acc.2 + 1
      (mapSet s.schemaId s acc.1, newCount))
    (repo.schemas, 0)
  { repo with
    schemas := r.1
    state := { repo.state with
                totalSchemasIndexed := repo.state.totalSchemasIndexed + r.2 } }

/-- `SchemaRepository.getSchema`. -/
def getSchema (repo : SchemaRepository) (schemaId : String) : Option IndexedSchema :=
  mapGet schemaId repo.schemas

/-- `SchemaRepository.updateState`: `this.state = { ...this.state, ...updates }`.
A field present on the update object overwrites the state field; an absent
field leaves it unchanged. -/
def updateState (repo : SchemaRepository) (u : IndexerStateUpdate) : SchemaRepository :=
  { repo with state :=
    { network := u.network.getD repo.state.network
      lastScannedBlock := u.lastScannedBlock.getD repo.state.lastScannedBlock
      lastSyncTimestamp := u.lastSyncTimestamp.getD repo.state.lastSyncTimestamp
      totalSchemasIndexed := u.totalSchemasIndexed.getD repo.state.totalSchemasIndexed
      isHealthy := u.isHealthy.getD repo.state.isHealthy } }

/-- Environment of a scan / real-time run: the outcome that each remote call
chain (rate limiter plus `retryWithBackoff`) ultimately produced, plus the
outcome of the JSON file write done by `saveSchemas` in the window starting at
a given height, and the wall clock used for `Date.now()`. -/
structure ScanEnv where
  getLogs : Nat → Nat → Except String (List SchemaRegisteredEvent)
  getBlockTimestamp : Nat → Except String Nat
  getTxFrom : String → Except String String
  persistOutcome : Nat → Option String
  now : Nat

/-- The minimal record built by `HistoricalScanner.enrichAndSaveEvents` (and
identically by `RealtimeMonitor.processEvent`): name and definition empty,
publisher from the transaction, timestamp from the block. -/
def eventToSchema (e : SchemaRegisteredEvent) (ts : Nat) (sender : String) : IndexedSchema :=
  { schemaId := e.schemaId
    schemaName := ""
    schemaDefinition := ""
    publisherAddress := sender
    blockNumber := e.blockNumber
    timestamp := ts
    transactionHash := e.transactionHash
    parentSchemaId := none
    isPublic := true
    metadata := none }

/-- Per-event half of `enrichAndSaveEvents`: fetch block then transaction;
on either failure the event is logged and skipped (`none`). -/
def enrichEvent (env : ScanEnv) (e : SchemaRegisteredEvent) : Option IndexedSchema :=
  match env.getBlockTimestamp e.blockNumber with
  | .error _ => none
  | .ok ts =>
    match env.getTxFrom e.transactionHash with
    | .error _ => none
    | .ok sender => some (eventToSchema e ts sender)

/-- `HistoricalScanner.scanBatch` plus `enrichAndSaveEvents` for one window:
fetch the logs (error after exhausted retries propagates); with logs present,
build the enriched records, skipping per-event failures; save the non-empty
batch, whose trailing file write may itself fail after the in-memory map and
counter were already mutated.  Returns the repository and the error, if any,
that the window raised. -/
def scanBatch (env : ScanEnv) (repo : SchemaRepository) (fromBlock toBlock : Nat) :
    SchemaRepository × Option String :=
  match env.getLogs fromBlock toBlock with
  | .error e => (repo, some e)
  | .ok logs =>
    if logs.isEmpty then (repo, none)
    else
      let schemas := logs.filterMap (enrichEvent env)
      if schemas.isEmpty then (repo, none)
      else
        let repo' := saveSchemas repo schemas
        match env.persistOutcome fromBlock with
        | some e => (repo', some e)
        | none => (repo', none)

/-- The `(fromBlock, toBlock)` windows generated by the loop in
`HistoricalScanner.scan`, fuelled (the fuel is one per loop iteration; with
`batchSize ≥ 1` the fuel supplied by `windows` is always sufficient). -/
def windowsGo (batchSize endBlock : Nat) : Nat → Nat → List (Nat × Nat)
  | 0, _ => []
  | fuel + 1, fromBlock =>
    if fromBlock ≤ endBlock then
      (fromBlock, min (fromBlock + batchSize - 1) endBlock) ::
        windowsGo batchSize endBlock fuel (min (fromBlock + batchSize - 1) endBlock + 1)
    else []

/-- The window decomposition of `[startBlock, endBlock]` traversed by
`scan(startBlock, endBlock)` with the given `batchSize`. -/
def windows (startBlock endBlock batchSize : Nat) : List (Nat × Nat) :=
  windowsGo batchSize endBlock (endBlock + 1 - startBlock) startBlock

/-- Loop body sequence of `HistoricalScanner.scan`, fuelled like `windowsGo`.
Besides the final repository it returns the trace of checkpoints persisted by
`updateState` after each completed window (`(lastScannedBlock,
lastSyncTimestamp)` pairs) and the propagated error, if any. -/
def scanGo (env : ScanEnv) (batchSize endBlock : Nat) :
    Nat → Nat → SchemaRepository → SchemaRepository × List (Nat × Nat) × Option String
  | 0, _, repo => (repo, [], none)
  | fuel + 1, fromBlock, repo =>
    if fromBlock ≤ endBlock then
      let toBlock := min (fromBlock + batchSize - 1) endBlock
      match scanBatch env repo fromBlock toBlock with
      | (repo', some e) => (repo', [], some e)
      | (repo', none) =>
        let repo'' := updateState repo'
          { lastScannedBlock := some toBlock, lastSyncTimestamp := some env.now }
        let r := scanGo env batchSize endBlock fuel (toBlock + 1) repo''
        (r.1, (toBlock, env.now) :: r.2.1, r.2.2)
    else (repo, [], none)

/-- `HistoricalScanner.scan(startBlock, endBlock)` with `endBlock` given (the
optional-argument resolution takes one height snapshot before the loop and is
outside this model). -/
def scan (env : ScanEnv) (repo : SchemaRepository) (startBlock endBlock batchSize : Nat) :
    SchemaRepository × List (Nat × Nat) × Option String :=
  scanGo env batchSize endBlock (endBlock + 1 - startBlock) startBlock repo

/-- The same loop, driven by an explicit window list: the form the coverage
and atomicity proofs induct over.  `scanGo` is proved equal to `runWindows`
over `windowsGo`. -/
def runWindows (env : ScanEnv) (repo : SchemaRepository) :
    List (Nat × Nat) → SchemaRepository × List (Nat × Nat) × Option String
  | [] => (repo, [], none)
  | w :: ws =>
    match scanBatch env repo w.1 w.2 with
    | (repo', some e) => (repo', [], some e)
    | (repo', none) =>
      let repo'' := updateState repo'
        { lastScannedBlock := some w.2, lastSyncTimestamp := some env.now }
      let r := runWindows env repo'' ws
      (r.1, (w.2, env.now) :: r.2.1, r.2.2)

/-- A raw log as seen by `RealtimeMonitor.processEvent`: the schema id is
`topics[1]`. -/
structure RtLog where
  topic1 : String
  blockNumber : Nat
  transactionHash : String
  deriving DecidableEq, Repr

/-- Notifications emitted through the in-process event bus by
`processEvent`. -/
inductive Emission where
  | discovered (schemaId : String) (blockNumber : Nat) (transactionHash : String) (timestamp : Nat)
  | indexed (schemaId : String) (isNew : Bool)
  deriving DecidableEq, Repr

/-- `RealtimeMonitor.processEvent`: emit the discovery notification, then
check the store; an already-indexed id is skipped (no write, no further
emission); otherwise fetch block and transaction (a retry-exhausted failure
throws to `handleLogs`), build the minimal record, `saveSchema` it, and emit
the indexed notification.  Returns the repository, the emissions in order,
and the thrown error, if any. -/
def processEvent (env : ScanEnv) (repo : SchemaRepository) (log : RtLog) :
    SchemaRepository × List Emission × Option String :=
  match mapGet log.topic1 repo.schemas with
  | some _ =>
    (repo, [Emission.discovered log.topic1 log.blockNumber log.transactionHash env.now], none)
  | none =>
    match env.getBlockTimestamp log.blockNumber with
    | .error e =>
      (repo, [Emission.discovered log.topic1 log.blockNumber log.transactionHash env.now],
       some e)
    | .ok ts =>
      match env.getTxFrom log.transactionHash with
      | .error e =>
        (repo, [Emission.discovered log.topic1 log.blockNumber log.transactionHash env.now],
         some e)
      | .ok sender =>
        (saveSchema repo
           (eventToSchema ⟨log.topic1, log.blockNumber, log.transactionHash, 0⟩ ts sender),
         [Emission.discovered log.topic1 log.blockNumber log.transactionHash env.now]
           ++ [Emission.indexed log.topic1 true],
         none)

/-- One store-mutating operation of the pipeline: a historical batch save or
a real-time log processing. -/
inductive StoreOp where
  | hist (schemas : List IndexedSchema)
  | rt (log : RtLog)

/-- Apply one operation to the repository (the store effect only). -/
def applyOp (env : ScanEnv) (repo : SchemaRepository) : StoreOp → SchemaRepository
  | .hist ss => saveSchemas repo ss
  | .rt log => (processEvent env repo log).1

/-- Run an interleaved sequence of historical and real-time operations. -/
def runOps (env : ScanEnv) (repo : SchemaRepository) (ops : List StoreOp) : SchemaRepository :=
  ops.foldl (applyOp env) repo

/-- `RetryConfig` from `src/utils/retry.ts` (milliseconds as `Nat`). -/
structure RetryConfig where
  maxRetries : Nat
  delayMs : Nat
  backoffMultiplier : Nat
  maxDelayMs : Nat
  deriving DecidableEq, Repr

/-- `DEFAULT_RETRY_CONFIG` from `src/utils/retry.ts`. -/
def DEFAULT_RETRY_CONFIG : RetryConfig :=
  { maxRetries := 3, delayMs := 1000, backoffMultiplier := 2, maxDelayMs := 10000 }

/-- The `for` loop of `retryWithBackoff`.  `fn` gives the outcome of the
wrapped operation on each attempt (numbered from 1); `remaining` counts the
loop iterations left (`maxRetries - attempt + 1`); `delay` is the mutable
delay variable.  Returns the overall outcome (`.error none` models the TS
`throw lastError` with `lastError` still `undefined`, reachable only with
`maxRetries = 0`), the list of performed sleeps in order, and the number of
times the operation was invoked. -/
def retryGo (fn : Nat → Except String Unit) (mult maxD : Nat) :
    Nat → Nat → Nat → Except (Option String) Unit × List Nat × Nat
  | 0, _, _ => (.error none, [], 0)
  | remaining + 1, attempt, delay =>
    match fn attempt with
    | .ok a => (.ok a, [], 1)
    | .error e =>
      if remaining = 0 then (.error (some e), [], 1)
      else
        let r := retryGo fn mult maxD remaining (attempt + 1) (min (delay * mult) maxD)
        (r.1, delay :: r.2.1, r.2.2 + 1)

/-- `retryWithBackoff` from `src/utils/retry.ts`, instrumented with the sleep
trace and the invocation count. -/
def retryWithBackoff (fn : Nat → Except String Unit) (cfg : RetryConfig) :
    Except (Option String) Unit × List Nat × Nat :=
  retryGo fn cfg.backoffMultiplier cfg.maxDelayMs cfg.maxRetries 1 cfg.delayMs

/-- The delay the loop sleeps after the `(k+1)`-th failed attempt
(`k = 0, 1, ...`): the raw `delayMs` first, then the capped exponential. -/
def backoffDelay (d mult maxD k : Nat) : Nat :=
  if k = 0 then d else min (d * mult ^ k) maxD

/-- The `for` loop of `WebhookManager.sendWebhook`: attempts are numbered
`0 .. maxRetries`; `responses` gives each request's outcome (a non-2xx
response or network failure is a thrown error).  On failure before the last
attempt it sleeps `min(1000 * 2^attempt, 10000)`.  Returns `none` on
delivery, or the last error once the budget is spent — the failure is logged
and dropped, never rethrown — plus the request count and the sleep trace. -/
def sendWebhookGo (responses : Nat → Except String Unit) (maxRetries : Nat) :
    Nat → Nat → Option String × Nat × List Nat
  | _, 0 => (none, 0, [])
  | attempt, fuel + 1 =>
    match responses attempt with
    | .ok _ => (none, 1, [])
    | .error e =>
      if attempt < maxRetries then
        let d := min (1000 * 2 ^ attempt) 10000
        let r := sendWebhookGo responses maxRetries (attempt + 1) fuel
        (r.1, r.2.1 + 1, d :: r.2.2)
      else (some e, 1, [])

/-- `WebhookManager.sendWebhook` for one subscription: the retry ceiling is
`config.retries || 3` (JS `||`: an absent or zero `retries` falls back to 3;
`registerWebhook` installs 3 by default). -/
def sendWebhook (responses : Nat → Except String Unit) (cfgRetries : Option Nat) :
    Option String × Nat × List Nat :=
  let maxRetries := match cfgRetries with
    | none => 3
    | some r => if r = 0 then 3 else r
  sendWebhookGo responses maxRetries 0 (maxRetries + 1)

/-- The fields of `RealtimeMonitor` relevant to the reconnect state machine:
`isRunning`, `reconnectAttempts`, the pending reconnect timer (as the delay it
was armed with), and whether `wsClient` is non-null. -/
structure MonitorState where
  isRunning : Bool
  reconnectAttempts : Nat
  reconnectTimer : Option Nat
  wsClientSet : Bool
  deriving DecidableEq, Repr

/-- `RealtimeMonitor.stop()`: clear the running flag, the pending timer, the
watcher and the client. -/
def stopMonitor (s : MonitorState) : MonitorState :=
  { s with isRunning := false, reconnectTimer := none, wsClientSet := false }

/-- `RealtimeMonitor.handleConnectionError`: no-op when the monitor was
stopped; otherwise bump the attempt counter; past the ceiling, stop; else arm
the reconnect timer with `reconnectDelay * reconnectAttempts`. -/
def handleConnectionError (reconnectDelay maxReconnectAttempts : Nat)
    (s : MonitorState) : MonitorState :=
  if !s.isRunning then s
  else
    let s1 := { s with reconnectAttempts := s.reconnectAttempts + 1 }
    if s1.reconnectAttempts > maxReconnectAttempts then stopMonitor s1
    else { s1 with reconnectTimer := some (reconnectDelay * s1.reconnectAttempts) }

/-- `RealtimeMonitor.isHealthy()`. -/
def monitorIsHealthy (s : MonitorState) : Bool :=
  s.isRunning && s.wsClientSet

/-- The monitor right after a successful `connect()` while running: attempts
reset to 0, client set, no timer pending. -/
def watchingMonitor : MonitorState :=
  { isRunning := true, reconnectAttempts := 0, reconnectTimer := none, wsClientSet := true }

/-! ## Basic facts about the JS `Map` embedding -/

theorem mapGet_mapSet (k k' : String) (v : IndexedSchema) (m : SchemaMap) :
    mapGet k' (mapSet k v m) = if k = k' then some v else mapGet k' m := by
  induction m with
  | nil => simp [mapGet, mapSet]
  | cons p rest ih =>
    obtain ⟨k0, v0⟩ := p
    by_cases h0 : k0 = k
    · subst h0
      simp only [mapSet, if_pos rfl, mapGet]
      by_cases h1 : k0 = k' <;> simp [h1]
    · simp only [mapSet, if_neg h0, mapGet]
      by_cases h1 : k0 = k'
      · subst h1
        have : ¬ k = k0 := fun h => h0 h.symm
        simp [this, ih]
      · simp [h1, ih]

theorem mapGet_mapSet_self (k : String) (v : IndexedSchema) (m : SchemaMap) :
    mapGet k (mapSet k v m) = some v := by
  simp [mapGet_mapSet]

theorem mapSet_keys_of_isSome (k : String) (v : IndexedSchema) (m : SchemaMap)
    (h : (mapGet k m).isSome) :
    (mapSet k v m).map Prod.fst = m.map Prod.fst := by
  induction m with
  | nil => simp [mapGet] at h
  | cons p rest ih =>
    obtain ⟨k0, v0⟩ := p
    by_cases h0 : k0 = k
    · subst h0; simp [mapSet]
    · simp only [mapGet, if_neg h0] at h
      simp [mapSet, if_neg h0, ih h]

theorem mapSet_keys_of_none (k : String) (v : IndexedSchema) (m : SchemaMap)
    (h : mapGet k m = none) :
    (mapSet k v m).map Prod.fst = m.map Prod.fst ++ [k] := by
  induction m with
  | nil => simp [mapSet]
  | cons p rest ih =>
    obtain ⟨k0, v0⟩ := p
    by_cases h0 : k0 = k
    · subst h0; simp [mapGet] at h
    · simp only [mapGet, if_neg h0] at h
      simp [mapSet, if_neg h0, ih h]

theorem mapGet_eq_none_iff (k : String) (m : SchemaMap) :
    mapGet k m = none ↔ k ∉ m.map Prod.fst := by
  induction m with
  | nil => simp [mapGet]
  | cons p rest ih =>
    obtain ⟨k0, v0⟩ := p
    by_cases h0 : k0 = k
    · subst h0; simp [mapGet]
    · simp only [mapGet, if_neg h0, ih, List.map_cons, List.mem_cons]
      constructor
      · intro h hk
        rcases hk with rfl | hm
        · exact h0 rfl
        · exact h hm
      · intro h hm
        exact h (Or.inr hm)

theorem mapSet_length_of_isSome (k : String) (v : IndexedSchema) (m : SchemaMap)
    (h : (mapGet k m).isSome) :
    (mapSet k v m).length = m.length := by
  have := mapSet_keys_of_isSome k v m h
  have h1 : ((mapSet k v m).map Prod.fst).length = (m.map Prod.fst).length := by rw [this]
  simpa using h1

theorem mapSet_length_of_none (k : String) (v : IndexedSchema) (m : SchemaMap)
    (h : mapGet k m = none) :
    (mapSet k v m).length = m.length + 1 := by
  have := mapSet_keys_of_none k v m h
  have h1 : ((mapSet k v m).map Prod.fst).length = (m.map Prod.fst ++ [k]).length := by rw [this]
  simpa using h1

/-! ## C10 — `updateState` frame property -/

/-- Claim C10: for every update object `u`, `updateState u` sets exactly the
`IndexerState` fields present in `u` and leaves every field absent from `u`
unchanged. -/
theorem updateState_frame (repo : SchemaRepository) (u : IndexerStateUpdate) :
    (u.network = none → (updateState repo u).state.network = repo.state.network)
  ∧ (∀ v, u.network = some v → (updateState repo u).state.network = v)
  ∧ (u.lastScannedBlock = none →
      (updateState repo u).state.lastScannedBlock = repo.state.lastScannedBlock)
  ∧ (∀ v, u.lastScannedBlock = some v → (updateState repo u).state.lastScannedBlock = v)
  ∧ (u.lastSyncTimestamp = none →
      (updateState repo u).state.lastSyncTimestamp = repo.state.lastSyncTimestamp)
  ∧ (∀ v, u.lastSyncTimestamp = some v → (updateState repo u).state.lastSyncTimestamp = v)
  ∧ (u.totalSchemasIndexed = none →
      (updateState repo u).state.totalSchemasIndexed = repo.state.totalSchemasIndexed)
  ∧ (∀ v, u.totalSchemasIndexed = some v → (updateState repo u).state.totalSchemasIndexed = v)
  ∧ (u.isHealthy = none → (updateState repo u).state.isHealthy = repo.state.isHealthy)
  ∧ (∀ v, u.isHealthy = some v → (updateState repo u).state.isHealthy = v)
  ∧ (updateState repo u).schemas = repo.schemas := by
  refine ⟨?_, ?_, ?_, ?_, ?_, ?_, ?_, ?_, ?_, ?_, rfl⟩ <;>
    first
      | (intro h; simp [updateState, h])
      | (intro v h; simp [updateState, h])

theorem updateState_frame_witness :
    ((updateState freshRepo { lastScannedBlock := some 42 }).state.lastScannedBlock = 42)
  ∧ ((updateState freshRepo { lastScannedBlock := some 42 }).state.network
      = freshRepo.state.network)
  ∧ ((updateState freshRepo { lastScannedBlock := some 42 }).state.totalSchemasIndexed
      = freshRepo.state.totalSchemasIndexed) := by
  have h := updateState_frame freshRepo { lastScannedBlock := some 42 }
  exact ⟨h.2.2.2.1 42 rfl, h.1 rfl, h.2.2.2.2.2.2.1 rfl⟩

/-! ## C1 — upsert merge semantics -/

/-- A record whose name and definition have already been enriched. -/
def enrichedRecord : IndexedSchema :=
  { schemaId := "0xa"
    schemaName := "Price Feed"
    schemaDefinition := "price:uint256,decimals:uint8"
    publisherAddress := "0xp"
    blockNumber := 5
    timestamp := 100
    transactionHash := "0xt"
    isPublic := true }

/-- A store already holding the enriched record. -/
def enrichedRepo : SchemaRepository :=
  { schemas := [("0xa", enrichedRecord)], state := defaultState }

/-- The minimal record the real-time path would build for the same id:
name and definition empty. -/
def minimalIncoming : IndexedSchema :=
  { enrichedRecord with schemaName := "", schemaDefinition := "" }

/-- Claim C1 as stated is false: saving a record with empty `schemaName` /
`schemaDefinition` over an id whose stored record was already enriched
replaces the non-empty fields with the empty ones, in both `saveSchema`
(object spread) and `saveSchemas` (wholesale `Map.set`). -/
theorem saveSchema_empty_overwrite_cex :
    (getSchema enrichedRepo "0xa").map IndexedSchema.schemaName = some "Price Feed"
  ∧ (getSchema (saveSchema enrichedRepo minimalIncoming) "0xa").map
      IndexedSchema.schemaName = some ""
  ∧ (getSchema (saveSchemas enrichedRepo [minimalIncoming]) "0xa").map
      IndexedSchema.schemaName = some ""
  ∧ ("Price Feed" : String) ≠ "" := by
  refine ⟨rfl, rfl, rfl, by decide⟩

/-- Claim C1 amended: on an existing id, `saveSchema` stores
`{ ...existing, ...incoming }` — every field present on the incoming record
wins unconditionally, empty strings included (so its name and definition are
the incoming ones), only absent optional fields keep their old values — and
the counter is not bumped; the batch path `saveSchemas` replaces the stored
record by the incoming one wholesale. -/
theorem saveSchema_upsert_overwrite (repo : SchemaRepository) (s existing : IndexedSchema)
    (h : mapGet s.schemaId repo.schemas = some existing) :
    getSchema (saveSchema repo s) s.schemaId = some (spreadMerge existing s)
  ∧ (spreadMerge existing s).schemaName = s.schemaName
  ∧ (spreadMerge existing s).schemaDefinition = s.schemaDefinition
  ∧ (saveSchema repo s).state = repo.state
  ∧ getSchema (saveSchemas repo [s]) s.schemaId = some s := by
  refine ⟨?_, rfl, rfl, ?_, ?_⟩
  · simp [getSchema, saveSchema, h, mapGet_mapSet_self]
  · simp [saveSchema, h]
  · simp [getSchema, saveSchemas, h, mapGet_mapSet_self]

theorem saveSchema_upsert_overwrite_witness :
    getSchema (saveSchema enrichedRepo minimalIncoming) minimalIncoming.schemaId
      = some (spreadMerge enrichedRecord minimalIncoming)
  ∧ (spreadMerge enrichedRecord minimalIncoming).schemaName = minimalIncoming.schemaName
  ∧ (spreadMerge enrichedRecord minimalIncoming).schemaDefinition
      = minimalIncoming.schemaDefinition
  ∧ (saveSchema enrichedRepo minimalIncoming).state = enrichedRepo.state
  ∧ getSchema (saveSchemas enrichedRepo [minimalIncoming]) minimalIncoming.schemaId
      = some minimalIncoming :=
  saveSchema_upsert_overwrite enrichedRepo minimalIncoming enrichedRecord rfl

/-! ## C4 — real-time duplicate handling -/

/-- An environment whose remote calls all succeed. -/
def quietEnv : ScanEnv :=
  { getLogs := fun _ _ => .ok []
    getBlockTimestamp := fun _ => .ok 0
    getTxFrom := fun _ => .ok "0x0"
    persistOutcome := fun _ => none
    now := 99 }

/-- A real-time log whose id is the one already stored in `enrichedRepo`. -/
def dupLog : RtLog :=
  { topic1 := "0xa", blockNumber := 5, transactionHash := "0xt" }

/-- Claim C4 as stated is false: for a log whose id is already stored, the
"discovered" notification is nevertheless emitted (it is emitted before the
store is consulted), so "no notification emitted" fails at this input. -/
theorem processEvent_discovered_before_check_cex :
    (getSchema enrichedRepo dupLog.topic1).isSome = true
  ∧ (processEvent quietEnv enrichedRepo dupLog).2.1
      = [Emission.discovered "0xa" 5 "0xt" 99]
  ∧ (processEvent quietEnv enrichedRepo dupLog).2.1 ≠ [] := by
  refine ⟨rfl, rfl, ?_⟩
  intro h
  exact List.cons_ne_nil _ _ h

/-- Claim C4 amended: `processEvent` emits the "discovered" notification for
every log, before consulting the store; a log whose id is already stored is
then skipped with no store write, no error, and no further notification (in
particular no "indexed" one). -/
theorem processEvent_duplicate_skip (env : ScanEnv) (repo : SchemaRepository) (log : RtLog)
    (h : (mapGet log.topic1 repo.schemas).isSome) :
    processEvent env repo log =
      (repo,
       [Emission.discovered log.topic1 log.blockNumber log.transactionHash env.now],
       none) := by
  rw [Option.isSome_iff_exists] at h
  obtain ⟨v, hv⟩ := h
  simp [processEvent, hv]

theorem processEvent_duplicate_skip_witness :
    processEvent quietEnv enrichedRepo dupLog =
      (enrichedRepo,
       [Emission.discovered dupLog.topic1 dupLog.blockNumber dupLog.transactionHash
          quietEnv.now],
       none) :=
  processEvent_duplicate_skip quietEnv enrichedRepo dupLog rfl

/-! ## C3 — deduplication and counter invariant -/

/-- The loop body of `saveSchemas` (map write plus `newCount` bookkeeping). -/
def saveStep (acc : SchemaMap × Nat) (s : IndexedSchema) : SchemaMap × Nat :=
  (mapSet s.schemaId s acc.1,
   if (mapGet s.schemaId acc.1).isSome then acc.2 else acc.2 + 1)

theorem saveSchemas_eq (repo : SchemaRepository) (ss : List IndexedSchema) :
    saveSchemas repo ss =
      { repo with
        schemas := (ss.foldl saveStep (repo.schemas, 0)).1
        state := { repo.state with
          totalSchemasIndexed :=
            repo.state.totalSchemasIndexed + (ss.foldl saveStep (repo.schemas, 0)).2 } } :=
  rfl

/-- Store well-formedness: at most one entry per id, and the counter equals
the number of stored (hence distinct) ids. -/
def RepoInv (repo : SchemaRepository) : Prop :=
  ((repo.schemas.map Prod.fst).Nodup)
  ∧ repo.state.totalSchemasIndexed = repo.schemas.length

theorem saveSchema_inv (repo : SchemaRepository) (s : IndexedSchema)
    (h : RepoInv repo) : RepoInv (saveSchema repo s) := by
  obtain ⟨hn, hc⟩ := h
  unfold saveSchema
  cases hm : mapGet s.schemaId repo.schemas with
  | some ex =>
    refine ⟨?_, ?_⟩
    · rw [mapSet_keys_of_isSome s.schemaId (spreadMerge ex s) repo.schemas (by simp [hm])]
      exact hn
    · rw [mapSet_length_of_isSome s.schemaId (spreadMerge ex s) repo.schemas (by simp [hm])]
      exact hc
  | none =>
    refine ⟨?_, ?_⟩
    · rw [mapSet_keys_of_none _ _ _ hm]
      refine List.Nodup.append hn (List.nodup_singleton _) ?_
      intro a ha hb
      simp only [List.mem_singleton] at hb
      subst hb
      exact ((mapGet_eq_none_iff _ _).mp hm) ha
    · simp [mapSet_length_of_none _ _ _ hm, hc]

theorem foldl_saveStep_inv (ss : List IndexedSchema) :
    ∀ (m : SchemaMap) (c : Nat), (m.map Prod.fst).Nodup →
      (((ss.foldl saveStep (m, c)).1.map Prod.fst).Nodup
        ∧ (ss.foldl saveStep (m, c)).1.length + c
            = m.length + (ss.foldl saveStep (m, c)).2) := by
  induction ss with
  | nil => intro m c hn; exact ⟨hn, rfl⟩
  | cons s ss ih =>
    intro m c hn
    simp only [List.foldl_cons]
    cases hm : mapGet s.schemaId m with
    | some ex =>
      have hkeys := mapSet_keys_of_isSome s.schemaId s m (by simp [hm])
      have hlen := mapSet_length_of_isSome s.schemaId s m (by simp [hm])
      have h := ih (mapSet s.schemaId s m) c (by rw [hkeys]; exact hn)
      simp only [saveStep, hm, Option.isSome_some, if_pos] at *
      exact ⟨h.1, by omega⟩
    | none =>
      have hkeys := mapSet_keys_of_none s.schemaId s m hm
      have hlen := mapSet_length_of_none s.schemaId s m hm
      have hn' : ((mapSet s.schemaId s m).map Prod.fst).Nodup := by
        rw [hkeys]
        refine List.Nodup.append hn (List.nodup_singleton _) ?_
        intro a ha hb
        simp only [List.mem_singleton] at hb
        subst hb
        exact ((mapGet_eq_none_iff _ _).mp hm) ha
      have h := ih (mapSet s.schemaId s m) (c + 1) hn'
      simp only [saveStep, hm, Option.isSome_none, Bool.false_eq_true, if_neg,
        if_false] at *
      exact ⟨h.1, by omega⟩

theorem saveSchemas_inv (repo : SchemaRepository) (ss : List IndexedSchema)
    (h : RepoInv repo) : RepoInv (saveSchemas repo ss) := by
  obtain ⟨hn, hc⟩ := h
  rw [saveSchemas_eq]
  have hf := foldl_saveStep_inv ss repo.schemas 0 hn
  exact ⟨hf.1, by simpa [hc] using by omega⟩

theorem processEvent_inv (env : ScanEnv) (repo : SchemaRepository) (log : RtLog)
    (h : RepoInv repo) : RepoInv (processEvent env repo log).1 := by
  unfold processEvent
  cases hm : mapGet log.topic1 repo.schemas with
  | some ex => exact h
  | none =>
    cases hb : env.getBlockTimestamp log.blockNumber with
    | error e => exact h
    | ok ts =>
      cases ht : env.getTxFrom log.transactionHash with
      | error e => exact h
      | ok sender =>
        exact saveSchema_inv repo
          (eventToSchema ⟨log.topic1, log.blockNumber, log.transactionHash, 0⟩ ts sender) h

theorem runOps_inv (env : ScanEnv) (ops : List StoreOp) :
    ∀ repo : SchemaRepository, RepoInv repo → RepoInv (runOps env repo ops) := by
  induction ops with
  | nil => intro repo h; exact h
  | cons op ops ih =>
    intro repo h
    cases op with
    | hist ss => exact ih _ (saveSchemas_inv repo ss h)
    | rt log => exact ih _ (processEvent_inv env repo log h)

/-- Claim C3: any interleaving of historical batch saves (`saveSchemas`) and
real-time event processing (`processEvent`, which calls `saveSchema`) starting
from a fresh store keeps at most one record per distinct id (the key list is
duplicate-free) and keeps `totalSchemasIndexed` equal to the number of
distinct stored ids — so the counter was incremented exactly once per
distinct id, at its first save, and never on a later save of the same id. -/
theorem dedup_counter_invariant (env : ScanEnv) (ops : List StoreOp) :
    (((runOps env freshRepo ops).schemas.map Prod.fst).Nodup)
  ∧ (runOps env freshRepo ops).state.totalSchemasIndexed
      = (runOps env freshRepo ops).schemas.length :=
  runOps_inv env ops freshRepo ⟨List.nodup_nil, rfl⟩

/-! ## C6 — `retryWithBackoff` schedule -/

theorem min_mul_min (x y cap : Nat) : min (min x cap * y) cap = min (x * y) cap := by
  rcases Nat.le_total x cap with h | h
  · rw [Nat.min_eq_left h]
  · rw [Nat.min_eq_right h]
    rcases Nat.eq_zero_or_pos y with rfl | hy
    · simp
    · have h1 : cap ≤ cap * y := Nat.le_mul_of_pos_right cap hy
      have h2 : cap ≤ x * y := le_trans h (Nat.le_mul_of_pos_right x hy)
      rw [Nat.min_eq_right h1, Nat.min_eq_right h2]

theorem backoffDelay_shift (d mult maxD k : Nat) :
    backoffDelay (min (d * mult) maxD) mult maxD k = backoffDelay d mult maxD (k + 1) := by
  by_cases hk : k = 0
  · subst hk
    simp [backoffDelay, pow_one]
  · simp only [backoffDelay, if_neg hk, if_neg (Nat.succ_ne_zero k)]
    rw [min_mul_min]
    congr 1
    ring

theorem retryGo_step (fn : Nat → Except String Unit) (mult maxD r att d : Nat) (e : String)
    (hf : fn att = .error e) :
    retryGo fn mult maxD (r + 1 + 1) att d =
      ((retryGo fn mult maxD (r + 1) (att + 1) (min (d * mult) maxD)).1,
       d :: (retryGo fn mult maxD (r + 1) (att + 1) (min (d * mult) maxD)).2.1,
       (retryGo fn mult maxD (r + 1) (att + 1) (min (d * mult) maxD)).2.2 + 1) := by
  rw [retryGo.eq_2, hf]
  rfl

theorem retryGo_all_fail (fn : Nat → Except String Unit) (err : Nat → String)
    (hfn : ∀ k, fn k = .error (err k)) (mult maxD : Nat) :
    ∀ (r att d : Nat), 1 ≤ r →
      retryGo fn mult maxD r att d =
        (.error (some (err (att + r - 1))),
         (List.range (r - 1)).map (backoffDelay d mult maxD),
         r) := by
  intro r
  induction r with
  | zero => intro att d h; omega
  | succ r ih =>
    intro att d _
    rcases Nat.eq_zero_or_pos r with rfl | hr
    · simp [retryGo, hfn att, backoffDelay]
    · obtain ⟨r', rfl⟩ : ∃ r', r = r' + 1 := ⟨r - 1, by omega⟩
      have hrec := ih (att + 1) (min (d * mult) maxD) (by omega)
      rw [retryGo_step fn mult maxD r' att d (err att) (hfn att)]
      rw [hrec]
      dsimp only
      simp only [Prod.mk.injEq]
      refine ⟨?_, ?_, trivial⟩
      · have harg : att + 1 + (r' + 1) - 1 = att + (r' + 1 + 1) - 1 := by omega
        rw [harg]
      · have h1 : r' + 1 - 1 = r' := by omega
        have h2 : r' + 1 + 1 - 1 = r' + 1 := by omega
        rw [h1, h2, List.range_succ_eq_map, List.map_cons, List.map_map]
        refine List.cons_eq_cons.mpr ⟨?_, ?_⟩
        · simp [backoffDelay]
        · refine List.map_congr_left ?_
          intro k _
          simpa using backoffDelay_shift d mult maxD k

/-- A configuration whose base delay exceeds the cap. -/
def bigDelayCfg : RetryConfig :=
  { maxRetries := 2, delayMs := 20000, backoffMultiplier := 2, maxDelayMs := 10000 }

/-- Claim C6 as stated is false at a configuration with `delayMs > maxDelayMs`:
the first sleep is the raw `delayMs` (the cap is applied only when the delay is
next updated), so with `delayMs = 20000, maxDelayMs = 10000` the loop sleeps
20000 ms where the claimed formula `min(delayMs * mult^0, maxDelayMs)`
prescribes 10000 ms. -/
theorem retry_first_delay_uncapped_cex :
    (retryWithBackoff (fun _ => .error "boom") bigDelayCfg).2.1 = [20000]
  ∧ (List.range (bigDelayCfg.maxRetries - 1)).map
      (fun k => min (bigDelayCfg.delayMs * bigDelayCfg.backoffMultiplier ^ k)
        bigDelayCfg.maxDelayMs) = [10000]
  ∧ ([20000] : List Nat) ≠ [10000] := by
  refine ⟨rfl, rfl, by decide⟩

/-- Claim C6 amended: with `maxRetries ≥ 1` and an operation failing on every
attempt, `retryWithBackoff` invokes the operation exactly `maxRetries` times
and finally throws the last attempt's error; the sleep before the 2nd attempt
is the raw `delayMs` (uncapped), and each later sleep follows
`min(delayMs * multiplier^(k-1), maxDelayMs)`; whenever `delayMs ≤ maxDelayMs`
(as in the defaults) every sleep, the first included, matches the capped
formula of the claim. -/
theorem retryWithBackoff_schedule (cfg : RetryConfig) (fn : Nat → Except String Unit)
    (err : Nat → String) (h1 : 1 ≤ cfg.maxRetries)
    (hfn : ∀ k, fn k = .error (err k)) :
    retryWithBackoff fn cfg =
      (.error (some (err cfg.maxRetries)),
       (List.range (cfg.maxRetries - 1)).map
         (backoffDelay cfg.delayMs cfg.backoffMultiplier cfg.maxDelayMs),
       cfg.maxRetries)
  ∧ (cfg.delayMs ≤ cfg.maxDelayMs →
      (List.range (cfg.maxRetries - 1)).map
        (backoffDelay cfg.delayMs cfg.backoffMultiplier cfg.maxDelayMs) =
      (List.range (cfg.maxRetries - 1)).map
        (fun k => min (cfg.delayMs * cfg.backoffMultiplier ^ k) cfg.maxDelayMs)) := by
  constructor
  · have h := retryGo_all_fail fn err hfn cfg.backoffMultiplier cfg.maxDelayMs
      cfg.maxRetries 1 cfg.delayMs h1
    have harg : 1 + cfg.maxRetries - 1 = cfg.maxRetries := by omega
    rw [retryWithBackoff, h, harg]
  · intro hd
    refine List.map_congr_left ?_
    intro k _
    by_cases hk : k = 0
    · subst hk
      simp [backoffDelay, Nat.min_eq_left hd]
    · simp [backoffDelay, if_neg hk]

theorem retryWithBackoff_schedule_witness :
    retryWithBackoff (fun _ => .error "t") DEFAULT_RETRY_CONFIG =
      (.error (some "t"), [1000, 2000], 3)
  ∧ (1 : Nat) ≤ DEFAULT_RETRY_CONFIG.maxRetries := by
  have h := (retryWithBackoff_schedule DEFAULT_RETRY_CONFIG (fun _ => .error "t")
    (fun _ => "t") (by decide) (fun _ => rfl)).1
  refine ⟨?_, by decide⟩
  rw [h]
  rfl

/-! ## C7 — webhook retry budget -/

/-- Claim C7 as stated is false: with the default configuration
(`retries = 3`, installed by `registerWebhook` or by the `config.retries || 3`
fallback) an endpoint failing on every request receives 4 POST attempts — the
loop runs `attempt = 0 .. maxRetries` inclusive, one initial attempt plus 3
retries — not 3. -/
theorem sendWebhook_attempt_count_cex :
    (sendWebhook (fun _ => .error "refused") none).2.1 = 4
  ∧ (sendWebhook (fun _ => .error "refused") none).2.1 ≠ 3
  ∧ (sendWebhook (fun _ => .error "refused") none).2.2 = [1000, 2000, 4000] := by
  refine ⟨rfl, by decide, rfl⟩

/-- Claim C7 amended: at the default configuration, delivering one event to
an endpoint that fails every request performs exactly 4 POST attempts (one
initial plus the 3-retry budget), sleeping `min(1000 * 2^k, 10000)` ms after
the `(k+1)`-th failure (1000, 2000, 4000 — exponential, capped at 10 s), and
then returns normally with the last error merely recorded for logging: the
failure is dropped, never rethrown into the indexing path. -/
theorem sendWebhook_default_retry_budget (resp : Nat → Except String Unit)
    (err : Nat → String) (hr : ∀ k, resp k = .error (err k)) :
    sendWebhook resp none = (some (err 3), 4, [1000, 2000, 4000]) := by
  have h0 := hr 0
  have h1 := hr 1
  have h2 := hr 2
  have h3 := hr 3
  simp only [sendWebhook, sendWebhookGo, h0, h1, h2, h3]
  norm_num

theorem sendWebhook_default_retry_budget_witness :
    sendWebhook (fun _ => .error "refused") none = (some "refused", 4, [1000, 2000, 4000]) :=
  sendWebhook_default_retry_budget (fun _ => .error "refused") (fun _ => "refused")
    (fun _ => rfl)

/-! ## C8 — reconnect policy -/

theorem handleConnectionError_progress (d m : Nat) :
    ∀ n, n ≤ m →
      (handleConnectionError d m)^[n] watchingMonitor =
        { isRunning := true
          reconnectAttempts := n
          reconnectTimer := if n = 0 then none else some (d * n)
          wsClientSet := true } := by
  intro n
  induction n with
  | zero => intro _; simp [watchingMonitor]
  | succ k ih =>
    intro h
    rw [Function.iterate_succ_apply', ih (by omega)]
    simp only [handleConnectionError, stopMonitor, Bool.not_true, Bool.false_eq_true,
      if_false]
    rw [if_neg (by omega : ¬ k + 1 > m)]
    simp

/-- Claim C8: consecutive connection errors while watching arm the `n`-th
reconnect with delay `reconnectDelay * n`; the error after the
`maxReconnectAttempts`-th attempt stops the monitor (no timer armed, client
dropped), `isHealthy()` then reports `false`, and every further connection
error leaves the stopped state untouched — no reconnect is ever scheduled
beyond the budget. -/
theorem reconnect_policy (d m n : Nat) (h1 : 1 ≤ n) (h2 : n ≤ m) :
    ((handleConnectionError d m)^[n] watchingMonitor).reconnectTimer = some (d * n)
  ∧ ((handleConnectionError d m)^[n] watchingMonitor).isRunning = true
  ∧ (handleConnectionError d m)^[m + 1] watchingMonitor =
      { isRunning := false
        reconnectAttempts := m + 1
        reconnectTimer := none
        wsClientSet := false }
  ∧ monitorIsHealthy ((handleConnectionError d m)^[m + 1] watchingMonitor) = false
  ∧ (∀ k, (handleConnectionError d m)^[m + 1 + k] watchingMonitor =
      (handleConnectionError d m)^[m + 1] watchingMonitor) := by
  have hstop : (handleConnectionError d m)^[m + 1] watchingMonitor =
      { isRunning := false
        reconnectAttempts := m + 1
        reconnectTimer := none
        wsClientSet := false } := by
    rw [Function.iterate_succ_apply', handleConnectionError_progress d m m le_rfl]
    simp only [handleConnectionError, stopMonitor, Bool.not_true, Bool.false_eq_true,
      if_false]
    rw [if_pos (by omega : m + 1 > m)]
  refine ⟨?_, ?_, hstop, ?_, ?_⟩
  · rw [handleConnectionError_progress d m n h2]
    simp [Nat.pos_iff_ne_zero.mp h1]
  · rw [handleConnectionError_progress d m n h2]
  · rw [hstop]
    rfl
  · intro k
    induction k with
    | zero => rfl
    | succ j ihj =>
      have : m + 1 + (j + 1) = (m + 1 + j) + 1 := by omega
      rw [this, Function.iterate_succ_apply', ihj, hstop]
      simp [handleConnectionError]

theorem reconnect_policy_witness :
    ((handleConnectionError 5000 10)^[3] watchingMonitor).reconnectTimer = some (5000 * 3)
  ∧ ((handleConnectionError 5000 10)^[3] watchingMonitor).isRunning = true
  ∧ (handleConnectionError 5000 10)^[10 + 1] watchingMonitor =
      { isRunning := false
        reconnectAttempts := 10 + 1
        reconnectTimer := none
        wsClientSet := false }
  ∧ monitorIsHealthy ((handleConnectionError 5000 10)^[10 + 1] watchingMonitor) = false
  ∧ (handleConnectionError 5000 10)^[10 + 1 + 7] watchingMonitor =
      (handleConnectionError 5000 10)^[10 + 1] watchingMonitor := by
  have h := reconnect_policy 5000 10 3 (by decide) (by decide)
  exact ⟨h.1, h.2.1, h.2.2.1, h.2.2.2.1, h.2.2.2.2 7⟩

/-! ## Window decomposition and the scan loop -/

theorem windowsGo_of_gt (b e : Nat) (fuel f : Nat) (h : e < f) :
    windowsGo b e fuel f = [] := by
  cases fuel with
  | zero => rfl
  | succ fuel => simp [windowsGo, Nat.not_le.mpr h]

theorem windowsGo_flatten (b e : Nat) (hb : 1 ≤ b) :
    ∀ (fuel f : Nat), e + 1 - f ≤ fuel →
      ((windowsGo b e fuel f).map (fun w => List.range' w.1 (w.2 + 1 - w.1))).flatten
        = List.range' f (e + 1 - f) := by
  intro fuel
  induction fuel with
  | zero =>
    intro f hf
    have : e + 1 - f = 0 := by omega
    simp [windowsGo, this]
  | succ fuel ih =>
    intro f hf
    by_cases h : f ≤ e
    · have htoB : f ≤ min (f + b - 1) e := by
        refine le_min (by omega) h
      have htoBe : min (f + b - 1) e ≤ e := min_le_right _ _
      have hrec := ih (min (f + b - 1) e + 1) (by omega)
      simp only [windowsGo, if_pos h, List.map_cons, List.flatten_cons, hrec]
      have hlen : min (f + b - 1) e + 1 = f + (min (f + b - 1) e + 1 - f) := by omega
      have hsum : (e + 1 - (min (f + b - 1) e + 1)) + (min (f + b - 1) e + 1 - f)
          = e + 1 - f := by omega
      calc List.range' f (min (f + b - 1) e + 1 - f)
            ++ List.range' (min (f + b - 1) e + 1) (e + 1 - (min (f + b - 1) e + 1))
          = List.range' f (min (f + b - 1) e + 1 - f)
            ++ List.range' (f + (min (f + b - 1) e + 1 - f))
                 (e + 1 - (min (f + b - 1) e + 1)) := by rw [← hlen]
        _ = List.range' f ((e + 1 - (min (f + b - 1) e + 1))
                 + (min (f + b - 1) e + 1 - f)) :=
              List.range'_append_1 _ _ _
        _ = List.range' f (e + 1 - f) := by rw [hsum]
    · have : e + 1 - f = 0 := by omega
      simp [windowsGo, h, this]

theorem windowsGo_snd (b e : Nat) :
    ∀ (fuel f : Nat), ∀ w ∈ windowsGo b e fuel f, w.2 = min (w.1 + b - 1) e := by
  intro fuel
  induction fuel with
  | zero => intro f w hw; simp [windowsGo] at hw
  | succ fuel ih =>
    intro f w hw
    by_cases h : f ≤ e
    · simp only [windowsGo, if_pos h, List.mem_cons] at hw
      rcases hw with rfl | hw
      · rfl
      · exact ih _ w hw
    · simp [windowsGo, h] at hw

theorem windowsGo_last_snd (b e : Nat) (hb : 1 ≤ b) :
    ∀ (fuel f x : Nat), f ≤ e → e + 1 - f ≤ fuel →
      ((windowsGo b e fuel f).map Prod.snd).getLastD x = e := by
  intro fuel
  induction fuel with
  | zero => intro f x hf hfuel; omega
  | succ fuel ih =>
    intro f x hf hfuel
    have htoB : f ≤ min (f + b - 1) e := le_min (by omega) hf
    have htoBe : min (f + b - 1) e ≤ e := min_le_right _ _
    simp only [windowsGo, if_pos hf, List.map_cons, List.getLastD_cons]
    by_cases hend : min (f + b - 1) e = e
    · rw [windowsGo_of_gt b e fuel (min (f + b - 1) e + 1) (by omega)]
      simpa using hend
    · exact ih (min (f + b - 1) e + 1) (min (f + b - 1) e) (by omega) (by omega)

theorem scanGo_eq_runWindows (env : ScanEnv) (b e : Nat) :
    ∀ (fuel f : Nat) (repo : SchemaRepository),
      scanGo env b e fuel f repo = runWindows env repo (windowsGo b e fuel f) := by
  intro fuel
  induction fuel with
  | zero => intro f repo; rfl
  | succ fuel ih =>
    intro f repo
    by_cases h : f ≤ e
    · simp only [scanGo, windowsGo, if_pos h, runWindows]
      rcases hsb : scanBatch env repo f (min (f + b - 1) e) with ⟨r1, out⟩
      cases out with
      | some err => rfl
      | none => simp only [ih]
    · simp [scanGo, windowsGo, h, runWindows]

theorem runWindows_ok_trace (env : ScanEnv) :
    ∀ (ws : List (Nat × Nat)) (repo : SchemaRepository),
      (runWindows env repo ws).2.2 = none →
      (runWindows env repo ws).2.1 = ws.map (fun w => (w.2, env.now)) := by
  intro ws
  induction ws with
  | nil => intro repo _; rfl
  | cons w ws ih =>
    intro repo hok
    rcases hsb : scanBatch env repo w.1 w.2 with ⟨r1, out⟩
    cases out with
    | some err =>
      exfalso
      simp only [runWindows, hsb] at hok
      exact Option.noConfusion hok
    | none =>
      simp only [runWindows, hsb, List.map_cons] at hok ⊢
      rw [ih _ hok]

theorem runWindows_ok_state (env : ScanEnv) :
    ∀ (ws : List (Nat × Nat)) (repo : SchemaRepository),
      (runWindows env repo ws).2.2 = none →
      (runWindows env repo ws).1.state.lastScannedBlock
          = (ws.map Prod.snd).getLastD repo.state.lastScannedBlock
      ∧ (runWindows env repo ws).1.state.lastSyncTimestamp
          = (if ws.isEmpty then repo.state.lastSyncTimestamp else env.now) := by
  intro ws
  induction ws with
  | nil => intro repo _; exact ⟨rfl, rfl⟩
  | cons w ws ih =>
    intro repo hok
    rcases hsb : scanBatch env repo w.1 w.2 with ⟨r1, out⟩
    cases out with
    | some err =>
      exfalso
      simp only [runWindows, hsb] at hok
      exact Option.noConfusion hok
    | none =>
      simp only [runWindows, hsb, List.map_cons, List.getLastD_cons, List.isEmpty_cons] at hok ⊢
      have hih := ih (updateState r1
        { lastScannedBlock := some w.2, lastSyncTimestamp := some env.now }) hok
      refine ⟨?_, ?_⟩
      · rw [hih.1]
        simp [updateState]
      · rw [hih.2]
        by_cases hws : ws.isEmpty <;> simp [hws, updateState]

/-- Claim C2: for `startHeight ≤ endHeight` and `batchSize ≥ 1`, the scan
walks contiguous, non-overlapping windows whose concatenated height ranges
are exactly `[startHeight, endHeight]` (each height once, in order); each
window ends at `min(windowStart + batchSize - 1, endHeight)`; and on a normal
completion the persisted checkpoint trace contains one entry per window —
including zero-event windows — recording `lastScannedBlock = windowEnd` and
`lastSyncTimestamp = now`, with the final state checkpointed at
`lastScannedBlock = endHeight`. -/
theorem scan_window_coverage (s e b : Nat) (hse : s ≤ e) (hb : 1 ≤ b) :
    (((windows s e b).map (fun w => List.range' w.1 (w.2 + 1 - w.1))).flatten
        = List.range' s (e + 1 - s))
  ∧ (∀ w ∈ windows s e b, w.2 = min (w.1 + b - 1) e)
  ∧ (∀ (env : ScanEnv) (repo : SchemaRepository),
      (scan env repo s e b).2.2 = none →
        (scan env repo s e b).2.1 = (windows s e b).map (fun w => (w.2, env.now))
      ∧ (scan env repo s e b).1.state.lastScannedBlock = e
      ∧ (scan env repo s e b).1.state.lastSyncTimestamp = env.now) := by
  refine ⟨windowsGo_flatten b e hb _ s le_rfl,
    fun w hw => windowsGo_snd b e _ s w hw, ?_⟩
  intro env repo hok
  simp only [scan, scanGo_eq_runWindows] at hok ⊢
  simp only [windows]
  refine ⟨runWindows_ok_trace env _ repo hok, ?_, ?_⟩
  · rw [(runWindows_ok_state env _ repo hok).1]
    exact windowsGo_last_snd b e hb _ s _ hse le_rfl
  · rw [(runWindows_ok_state env _ repo hok).2]
    obtain ⟨fu, hfu⟩ : ∃ fu, e + 1 - s = fu + 1 := ⟨e - s, by omega⟩
    rw [hfu]
    simp [windowsGo, hse]

theorem scan_window_coverage_witness :
    (((windows 500 1000 1000).map (fun w => List.range' w.1 (w.2 + 1 - w.1))).flatten
        = List.range' 500 (1000 + 1 - 500))
  ∧ ((scan quietEnv freshRepo 500 1000 1000).2.1
        = (windows 500 1000 1000).map (fun w => (w.2, quietEnv.now)))
  ∧ (scan quietEnv freshRepo 500 1000 1000).1.state.lastScannedBlock = 1000
  ∧ (scan quietEnv freshRepo 500 1000 1000).1.state.lastSyncTimestamp = quietEnv.now := by
  have h := scan_window_coverage 500 1000 1000 (by decide) (by decide)
  have h3 := h.2.2 quietEnv freshRepo rfl
  exact ⟨h.1, h3.1, h3.2.1, h3.2.2⟩

theorem scanBatch_lastScanned (env : ScanEnv) (repo : SchemaRepository) (f t : Nat) :
    (scanBatch env repo f t).1.state.lastScannedBlock = repo.state.lastScannedBlock := by
  unfold scanBatch
  cases env.getLogs f t with
  | error e => rfl
  | ok logs =>
    by_cases hl : logs.isEmpty = true
    · simp [hl]
    · simp only [hl, if_false, Bool.false_eq_true]
      by_cases hs : (logs.filterMap (enrichEvent env)).isEmpty = true
      · simp [hs]
      · simp only [hs, if_false, Bool.false_eq_true]
        cases env.persistOutcome f with
        | some e => simp [saveSchemas]
        | none => simp [saveSchemas]

theorem runWindows_error (env : ScanEnv) :
    ∀ (ws : List (Nat × Nat)) (repo repo' : SchemaRepository)
      (trace : List (Nat × Nat)) (err : String),
      runWindows env repo ws = (repo', trace, some err) →
      ∃ k, ∃ hk : k < ws.length,
        trace = (ws.take k).map (fun w => (w.2, env.now))
        ∧ scanBatch env (runWindows env repo (ws.take k)).1
            (ws.get ⟨k, hk⟩).1 (ws.get ⟨k, hk⟩).2 = (repo', some err)
        ∧ repo'.state.lastScannedBlock
            = ((ws.take k).map Prod.snd).getLastD repo.state.lastScannedBlock := by
  intro ws
  induction ws with
  | nil =>
    intro repo repo' trace err h
    exfalso
    simp only [runWindows, Prod.mk.injEq] at h
    exact Option.noConfusion h.2.2
  | cons w ws ih =>
    intro repo repo' trace err h
    rcases hsb : scanBatch env repo w.1 w.2 with ⟨r1, out⟩
    cases out with
    | some ε =>
      simp only [runWindows, hsb, Prod.mk.injEq] at h
      obtain ⟨hr, ht, he⟩ := h
      refine ⟨0, by simp, ?_, ?_, ?_⟩
      · exact ht.symm
      · simp only [List.take_zero, runWindows, List.get]
        rw [hsb, hr, he]
      · rw [← hr]
        have := scanBatch_lastScanned env repo w.1 w.2
        rw [hsb] at this
        simpa using this
    | none =>
      simp only [runWindows, hsb] at h
      rcases hrun : runWindows env
          (updateState r1 { lastScannedBlock := some w.2, lastSyncTimestamp := some env.now })
          ws with ⟨rf, tr, out2⟩
      rw [hrun] at h
      simp only [Prod.mk.injEq] at h
      obtain ⟨hr, ht, he⟩ := h
      subst he
      obtain ⟨k, hk, htr, hbatch, hlast⟩ := ih _ _ _ _ hrun
      refine ⟨k + 1, by simpa using Nat.succ_lt_succ hk, ?_, ?_, ?_⟩
      · rw [← ht, List.take_succ_cons, List.map_cons, htr]
      · simp only [List.take_succ_cons, runWindows, hsb, List.get_cons_succ]
        rw [hr] at hbatch
        exact hbatch
      · rw [← hr, hlast, List.take_succ_cons, List.map_cons, List.getLastD_cons]
        simp [updateState]

/-- Claim C5: whenever `scan` propagates an error — a window whose log fetch
exhausted its retries or whose batch persist threw — exactly the windows
before the failing one were completed and checkpointed: the checkpoint trace
is the map of a strict prefix of the window list, the returned error is the
one the failing window's `scanBatch` raised, and the persisted
`lastScannedBlock` is still the previous completed window's end (the
caller's starting value when the first window fails) — never the failing
window's. -/
theorem scan_failure_atomicity (env : ScanEnv) (repo : SchemaRepository)
    (s e b : Nat) (repo' : SchemaRepository) (trace : List (Nat × Nat)) (err : String)
    (h : scan env repo s e b = (repo', trace, some err)) :
    ∃ k, ∃ hk : k < (windows s e b).length,
      trace = ((windows s e b).take k).map (fun w => (w.2, env.now))
      ∧ scanBatch env (runWindows env repo ((windows s e b).take k)).1
          ((windows s e b).get ⟨k, hk⟩).1 ((windows s e b).get ⟨k, hk⟩).2
          = (repo', some err)
      ∧ repo'.state.lastScannedBlock
          = (((windows s e b).take k).map Prod.snd).getLastD
              repo.state.lastScannedBlock := by
  simp only [scan, scanGo_eq_runWindows] at h
  simp only [windows]
  exact runWindows_error env _ repo repo' trace err h

/-- An environment whose log queries always fail (retry budget exhausted). -/
def failEnv : ScanEnv :=
  { getLogs := fun _ _ => .error "rpc down"
    getBlockTimestamp := fun _ => .ok 0
    getTxFrom := fun _ => .ok "0x0"
    persistOutcome := fun _ => none
    now := 7 }

theorem scan_failure_atomicity_witness :
    ∃ k, ∃ hk : k < (windows 3 10 4).length,
      ([] : List (Nat × Nat)) = ((windows 3 10 4).take k).map (fun w => (w.2, failEnv.now))
      ∧ scanBatch failEnv (runWindows failEnv freshRepo ((windows 3 10 4).take k)).1
          ((windows 3 10 4).get ⟨k, hk⟩).1 ((windows 3 10 4).get ⟨k, hk⟩).2
          = (freshRepo, some "rpc down")
      ∧ freshRepo.state.lastScannedBlock
          = (((windows 3 10 4).take k).map Prod.snd).getLastD
              freshRepo.state.lastScannedBlock :=
  scan_failure_atomicity failEnv freshRepo 3 10 4 freshRepo [] "rpc down" rfl

/-! ## C9 — idempotent resumability -/

/-- Apply a batch of records to the map in order (the map component of the
`saveSchemas` loop). -/
def setAll (m : SchemaMap) (ss : List IndexedSchema) : SchemaMap :=
  ss.foldl (fun acc s => mapSet s.schemaId s acc) m

/-- The last record in the list carrying the given id, if any (last write
wins). -/
def lastWrite (k : String) : List IndexedSchema → Option IndexedSchema
  | [] => none
  | s :: ss =>
    match lastWrite k ss with
    | some v => some v
    | none => if s.schemaId = k then some s else none

theorem foldl_saveStep_fst (ss : List IndexedSchema) :
    ∀ (m : SchemaMap) (c : Nat), (ss.foldl saveStep (m, c)).1 = setAll m ss := by
  induction ss with
  | nil => intro m c; rfl
  | cons s ss ih =>
    intro m c
    simp only [List.foldl_cons, saveStep, setAll]
    rw [ih]
    rfl

theorem mapGet_setAll (ss : List IndexedSchema) :
    ∀ (m : SchemaMap) (k : String),
      mapGet k (setAll m ss) =
        match lastWrite k ss with
        | some v => some v
        | none => mapGet k m := by
  induction ss with
  | nil => intro m k; rfl
  | cons s ss ih =>
    intro m k
    simp only [setAll, List.foldl_cons]
    have : (ss.foldl (fun acc s => mapSet s.schemaId s acc) (mapSet s.schemaId s m))
        = setAll (mapSet s.schemaId s m) ss := rfl
    rw [this, ih]
    cases hlw : lastWrite k ss with
    | some v => simp [lastWrite, hlw]
    | none =>
      rw [mapGet_mapSet]
      by_cases hks : s.schemaId = k
      · simp [lastWrite, hlw, hks]
      · simp [lastWrite, hlw, hks]

theorem lastWrite_isSome_of_mem (s : IndexedSchema) (ss : List IndexedSchema)
    (h : s ∈ ss) : (lastWrite s.schemaId ss).isSome := by
  induction ss with
  | nil => simp at h
  | cons a ss ih =>
    rcases List.mem_cons.mp h with rfl | hmem
    · cases hlw : lastWrite s.schemaId ss with
      | some v => simp [lastWrite, hlw]
      | none => simp [lastWrite, hlw]
    · have := ih hmem
      cases hlw : lastWrite s.schemaId ss with
      | some v => simp [lastWrite, hlw]
      | none => rw [hlw] at this; simp at this

theorem mapGet_isSome_mapSet (k k' : String) (v : IndexedSchema) (m : SchemaMap)
    (h : (mapGet k m).isSome) : (mapGet k (mapSet k' v m)).isSome := by
  rw [mapGet_mapSet]
  by_cases hk : k' = k
  · simp [hk]
  · simpa [hk] using h

theorem foldl_saveStep_count_of_present (ss : List IndexedSchema) :
    ∀ (m : SchemaMap) (c : Nat),
      (∀ s ∈ ss, (mapGet s.schemaId m).isSome) →
      (ss.foldl saveStep (m, c)).2 = c := by
  induction ss with
  | nil => intro m c _; rfl
  | cons s ss ih =>
    intro m c hpres
    have hs : (mapGet s.schemaId m).isSome := hpres s (List.mem_cons_self s ss)
    simp only [List.foldl_cons, saveStep, hs, if_pos]
    refine ih _ c ?_
    intro s' hs'
    exact mapGet_isSome_mapSet s'.schemaId s.schemaId s m (hpres s' (List.mem_cons_of_mem s hs'))

/-- The records a window contributes to the store: all successfully enriched
events of its log batch (empty when the fetch failed or found nothing). -/
def windowBatch (env : ScanEnv) (w : Nat × Nat) : List IndexedSchema :=
  match env.getLogs w.1 w.2 with
  | .error _ => []
  | .ok logs => logs.filterMap (enrichEvent env)

theorem scanBatch_schemas (env : ScanEnv) (repo : SchemaRepository) (f t : Nat) :
    (scanBatch env repo f t).1.schemas = setAll repo.schemas (windowBatch env (f, t)) := by
  unfold scanBatch windowBatch
  cases env.getLogs f t with
  | error e => rfl
  | ok logs =>
    by_cases hl : logs.isEmpty = true
    · rw [List.isEmpty_iff.mp hl]
      rfl
    · simp only [hl, if_false, Bool.false_eq_true]
      by_cases hs : (logs.filterMap (enrichEvent env)).isEmpty = true
      · rw [List.isEmpty_iff.mp hs]
        rfl
      · simp only [hs, if_false, Bool.false_eq_true]
        cases env.persistOutcome f with
        | some e => simp [saveSchemas_eq, foldl_saveStep_fst]
        | none => simp [saveSchemas_eq, foldl_saveStep_fst]

theorem scanBatch_counter (env : ScanEnv) (repo : SchemaRepository) (f t : Nat)
    (hpres : ∀ s ∈ windowBatch env (f, t), (mapGet s.schemaId repo.schemas).isSome) :
    (scanBatch env repo f t).1.state.totalSchemasIndexed
      = repo.state.totalSchemasIndexed := by
  unfold scanBatch
  unfold windowBatch at hpres
  cases hlogs : env.getLogs f t with
  | error e => rfl
  | ok logs =>
    rw [hlogs] at hpres
    by_cases hl : logs.isEmpty = true
    · simp [hl]
    · simp only [hl, if_false, Bool.false_eq_true]
      by_cases hs : (logs.filterMap (enrichEvent env)).isEmpty = true
      · simp [hs]
      · simp only [hs, if_false, Bool.false_eq_true]
        have hcount := foldl_saveStep_count_of_present
          (logs.filterMap (enrichEvent env)) repo.schemas 0 hpres
        cases env.persistOutcome f with
        | some e => simp [saveSchemas_eq, hcount]
        | none => simp [saveSchemas_eq, hcount]

theorem scanBatch_snd_indep (env : ScanEnv) (r1 r2 : SchemaRepository) (f t : Nat) :
    (scanBatch env r1 f t).2 = (scanBatch env r2 f t).2 := by
  unfold scanBatch
  cases env.getLogs f t with
  | error e => rfl
  | ok logs =>
    by_cases hl : logs.isEmpty = true
    · simp [hl]
    · simp only [hl, if_false, Bool.false_eq_true]
      by_cases hs : (logs.filterMap (enrichEvent env)).isEmpty = true
      · simp [hs]
      · simp only [hs, if_false, Bool.false_eq_true]
        cases env.persistOutcome f with
        | some e => rfl
        | none => rfl

theorem runWindows_snd_indep (env : ScanEnv) :
    ∀ (ws : List (Nat × Nat)) (r1 r2 : SchemaRepository),
      (runWindows env r1 ws).2 = (runWindows env r2 ws).2 := by
  intro ws
  induction ws with
  | nil => intro r1 r2; rfl
  | cons w ws ih =>
    intro r1 r2
    have hsnd := scanBatch_snd_indep env r1 r2 w.1 w.2
    rcases h1 : scanBatch env r1 w.1 w.2 with ⟨a1, out1⟩
    rcases h2 : scanBatch env r2 w.1 w.2 with ⟨a2, out2⟩
    rw [h1, h2] at hsnd
    simp only at hsnd
    subst hsnd
    cases out1 with
    | some err => simp [runWindows, h1, h2]
    | none =>
      simp only [runWindows, h1, h2]
      have := ih (updateState a1
          { lastScannedBlock := some w.2, lastSyncTimestamp := some env.now })
        (updateState a2
          { lastScannedBlock := some w.2, lastSyncTimestamp := some env.now })
      rcases hx : runWindows env (updateState a1
          { lastScannedBlock := some w.2, lastSyncTimestamp := some env.now }) ws
        with ⟨xf, xtr, xout⟩
      rcases hy : runWindows env (updateState a2
          { lastScannedBlock := some w.2, lastSyncTimestamp := some env.now }) ws
        with ⟨yf, ytr, yout⟩
      rw [hx, hy] at this
      simp only [Prod.mk.injEq] at this
      simp [this.1, this.2]

theorem runWindows_ok_schemas (env : ScanEnv) :
    ∀ (ws : List (Nat × Nat)) (repo : SchemaRepository),
      (runWindows env repo ws).2.2 = none →
      (runWindows env repo ws).1.schemas
        = setAll repo.schemas (ws.map (windowBatch env)).flatten := by
  intro ws
  induction ws with
  | nil => intro repo _; rfl
  | cons w ws ih =>
    intro repo hok
    rcases hsb : scanBatch env repo w.1 w.2 with ⟨r1, out⟩
    cases out with
    | some err =>
      exfalso
      simp only [runWindows, hsb] at hok
      exact Option.noConfusion hok
    | none =>
      simp only [runWindows, hsb] at hok ⊢
      have hbatch : r1.schemas = setAll repo.schemas (windowBatch env (w.1, w.2)) := by
        have := scanBatch_schemas env repo w.1 w.2
        rw [hsb] at this
        exact this
      rw [List.map_cons, List.flatten_cons]
      have hup : (updateState r1
          { lastScannedBlock := some w.2, lastSyncTimestamp := some env.now }).schemas
          = r1.schemas := rfl
      rw [ih _ hok, hup, hbatch]
      simp only [setAll, List.foldl_append]

theorem runWindows_counter (env : ScanEnv) :
    ∀ (ws : List (Nat × Nat)) (repo : SchemaRepository),
      (∀ s ∈ (ws.map (windowBatch env)).flatten,
        (mapGet s.schemaId repo.schemas).isSome) →
      (runWindows env repo ws).1.state.totalSchemasIndexed
        = repo.state.totalSchemasIndexed := by
  intro ws
  induction ws with
  | nil => intro repo _; rfl
  | cons w ws ih =>
    intro repo hpres
    have hpres1 : ∀ s ∈ windowBatch env (w.1, w.2),
        (mapGet s.schemaId repo.schemas).isSome := by
      intro s hs
      refine hpres s ?_
      simp only [List.map_cons, List.flatten_cons, List.mem_append]
      exact Or.inl hs
    have hcnt := scanBatch_counter env repo w.1 w.2 hpres1
    rcases hsb : scanBatch env repo w.1 w.2 with ⟨r1, out⟩
    rw [hsb] at hcnt
    simp only at hcnt
    cases out with
    | some err => simpa [runWindows, hsb] using hcnt
    | none =>
      simp only [runWindows, hsb]
      have hsc : r1.schemas = setAll repo.schemas (windowBatch env (w.1, w.2)) := by
        have := scanBatch_schemas env repo w.1 w.2
        rw [hsb] at this
        exact this
      have hpres2 : ∀ s ∈ (ws.map (windowBatch env)).flatten,
          (mapGet s.schemaId (updateState r1
            { lastScannedBlock := some w.2, lastSyncTimestamp := some env.now
              }).schemas).isSome := by
        intro s hs
        have hmem : (mapGet s.schemaId repo.schemas).isSome := by
          refine hpres s ?_
          simp only [List.map_cons, List.flatten_cons, List.mem_append]
          exact Or.inr hs
        show (mapGet s.schemaId r1.schemas).isSome
        rw [hsc, mapGet_setAll]
        cases hlw : lastWrite s.schemaId (windowBatch env (w.1, w.2)) with
        | some v => rfl
        | none => exact hmem
      have := ih _ hpres2
      rw [this]
      exact hcnt

/-- Claim C9: if `scan(s, e)` completes normally, re-running the same scan
over the same (unchanged, deterministic) chain data with no operations in
between completes normally again, leaves every id mapped to the same record
(no duplicates, the record set is unchanged), and leaves
`totalSchemasIndexed` unchanged (no double counting). -/
theorem scan_idempotent (env : ScanEnv) (repo : SchemaRepository) (s e b : Nat)
    (r1 : SchemaRepository) (t1 : List (Nat × Nat))
    (h : scan env repo s e b = (r1, t1, none)) :
    (scan env r1 s e b).2.2 = none
  ∧ (∀ k, mapGet k (scan env r1 s e b).1.schemas = mapGet k r1.schemas)
  ∧ (scan env r1 s e b).1.state.totalSchemasIndexed
      = r1.state.totalSchemasIndexed := by
  simp only [scan, scanGo_eq_runWindows] at h ⊢
  have hout1 : (runWindows env repo (windowsGo b e (e + 1 - s) s)).2.2 = none := by
    rw [h]
  have hr1 : (runWindows env repo (windowsGo b e (e + 1 - s) s)).1 = r1 := by
    rw [h]
  have hsnd := runWindows_snd_indep env (windowsGo b e (e + 1 - s) s) r1 repo
  have hout2 : (runWindows env r1 (windowsGo b e (e + 1 - s) s)).2.2 = none := by
    calc (runWindows env r1 (windowsGo b e (e + 1 - s) s)).2.2
        = (runWindows env repo (windowsGo b e (e + 1 - s) s)).2.2 := by rw [hsnd]
      _ = none := hout1
  have hsch1 := runWindows_ok_schemas env (windowsGo b e (e + 1 - s) s) repo hout1
  have hsch2 := runWindows_ok_schemas env (windowsGo b e (e + 1 - s) s) r1 hout2
  have hpres : ∀ s' ∈ ((windowsGo b e (e + 1 - s) s).map (windowBatch env)).flatten,
      (mapGet s'.schemaId r1.schemas).isSome := by
    intro s' hs'
    rw [← hr1, hsch1, mapGet_setAll]
    have hmem := lastWrite_isSome_of_mem s'
      ((windowsGo b e (e + 1 - s) s).map (windowBatch env)).flatten hs'
    cases hlw : lastWrite s'.schemaId
        ((windowsGo b e (e + 1 - s) s).map (windowBatch env)).flatten with
    | some v => rfl
    | none => rw [hlw] at hmem; simp at hmem
  refine ⟨hout2, ?_,
    runWindows_counter env (windowsGo b e (e + 1 - s) s) r1 hpres⟩
  intro k
  rw [hsch2, mapGet_setAll]
  cases hlw : lastWrite k
      ((windowsGo b e (e + 1 - s) s).map (windowBatch env)).flatten with
  | some v => rw [← hr1, hsch1, mapGet_setAll, hlw]
  | none => rfl

/-- An environment for which the first scan window finds one event and the
others none. -/
def oneEventEnv : ScanEnv :=
  { getLogs := fun f _ => if f = 0 then .ok [⟨"0xs", 0, "0xtx", 0⟩] else .ok []
    getBlockTimestamp := fun _ => .ok 7
    getTxFrom := fun _ => .ok "0xp"
    persistOutcome := fun _ => none
    now := 5 }

theorem scan_idempotent_witness :
    (scan oneEventEnv (scan oneEventEnv freshRepo 0 3 2).1 0 3 2).2.2 = none
  ∧ mapGet "0xs" (scan oneEventEnv (scan oneEventEnv freshRepo 0 3 2).1 0 3 2).1.schemas
      = mapGet "0xs" (scan oneEventEnv freshRepo 0 3 2).1.schemas
  ∧ (scan oneEventEnv
        (scan oneEventEnv freshRepo 0 3 2).1 0 3 2).1.state.totalSchemasIndexed
      = (scan oneEventEnv freshRepo 0 3 2).1.state.totalSchemasIndexed := by
  have h := scan_idempotent oneEventEnv freshRepo 0 3 2
    (scan oneEventEnv freshRepo 0 3 2).1 (scan oneEventEnv freshRepo 0 3 2).2.1 rfl
  exact ⟨h.1, h.2.1 "0xs", h.2.2⟩
